import Mathlib

/-!
Verification development for the hyprlang-pybind repository.

The repository binds the hyprlang configuration engine to Python through
pybind11 (`src/bindings.cpp`).  The definitions below are a shallow
embedding of that binding layer together with the schema/value engine it
drives.  Definitions taken directly from `src/bindings.cpp` cite the lines
they translate.  The hyprlang engine itself (`Hyprlang::CConfig` and its
parse pipeline) and the high-level Python API (`to_tree`, nested schemas)
are not part of the repository's `src/` tree; those definitions are
modelled from the spec and marked `Modelled from the spec:`.
-/

namespace HyprlangBind

deriving instance DecidableEq for Except

/-! ## Association-list helpers (used to model the engine's keyed maps) -/

/-- First-match lookup in an association list, the map semantics used by the
engine for entries, special categories and the modelled filesystem. -/
def lookupKey {κ α : Type} [DecidableEq κ] (n : κ) : List (κ × α) → Option α
  | [] => none
  | kv :: rest => if kv.1 = n then some kv.2 else lookupKey n rest

/-- Replace the value stored under a key (all occurrences), leaving other
keys untouched.  Used for committing an assignment to an entry. -/
def setKey {κ α : Type} [DecidableEq κ] (l : List (κ × α)) (n : κ) (a : α) : List (κ × α) :=
  l.map fun kv => if kv.1 = n then (kv.1, a) else kv

/-! ## The value model

`bindings.cpp` creates configuration values of exactly four kinds
(lines 116-131): `Hyprlang::INT` (an `int64_t`), `Hyprlang::FLOAT`
(stored through `defaultVal.cast<float>()`, a C++ `float`),
`Hyprlang::STRING`, and `Hyprlang::SVector2D` (two C++ `float` fields,
line 47).  Float payloads are carried as rationals in the embedding; the
storage width of the C++ type is recorded separately below. -/

/-- The four value kinds of the binding (bindings.cpp lines 116-131). -/
inductive ValueKind where
  | int64
  | float
  | text
  | vec2
deriving DecidableEq

/-- A typed configuration value.  Closed: the binding can create no other
kind of value (bindings.cpp lines 116-131 and 170-185). -/
inductive ConfigValue where
  | int64 (v : Int)
  | float (q : ℚ)
  | text (s : String)
  | vec2 (x y : ℚ)
deriving DecidableEq

/-- The kind of a configuration value. -/
def ConfigValue.kind : ConfigValue → ValueKind
  | .int64 _ => .int64
  | .float _ => .float
  | .text _ => .text
  | .vec2 _ _ => .vec2

/-- Bit width of the C++ storage behind the integer kind:
`(Hyprlang::INT)defaultVal.cast<int64_t>()` at bindings.cpp line 118,
an `int64_t`. -/
def intKindBits : Nat := 64

/-- Bit width of the C++ storage behind the float kind: the binding stores
float defaults through `defaultVal.cast<float>()` (bindings.cpp line 120)
and reads them back through the `typeid(float)` branch of `anyToPython`
(line 20).  C++ `float` on every platform pybind11 supports is IEEE-754
binary32, 32 bits wide. -/
def floatKindBits : Nat := 32

/-- Bit width of each component of the vector kind: `Hyprlang::SVector2D`
is constructed from two C++ `float`s (bindings.cpp lines 47-48 and 127). -/
def vec2ComponentBits : Nat := 32

/-! ## The Python side of the boundary

A `PyObject` models the Python value handed to `add_value` /
`add_special_value` as `py::object defaultVal`.  Tuple items are modelled
as scalars (`PyScalar`): the binding only ever float-casts tuple items
(lines 126-127), and any non-scalar item behaves exactly like the opaque
`pother` case (the cast raises). -/

/-- A scalar Python value as it can occur inside a tuple default. -/
inductive PyScalar where
  | pbool (b : Bool)
  | pint (v : Int)
  | pfloat (q : ℚ)
  | pstr (s : String)
  | pnone
  | pother
deriving DecidableEq

/-- A Python object at the `add_value` boundary. -/
inductive PyObject where
  | pyBool (b : Bool)
  | pyInt (v : Int)
  | pyFloat (q : ℚ)
  | pyStr (s : String)
  | pySVec (x y : ℚ)
  | pyTuple (items : List PyScalar)
  | pyNone
  | pyOther
deriving DecidableEq

/-- pybind11's `defaultVal.cast<int64_t>()` (bindings.cpp line 118).
`py::isinstance<py::int_>` is `PyLong_Check`, which accepts `bool`
(Python's `bool` subtypes `int`); the cast then yields 1 or 0.  A Python
int outside the `int64_t` range makes the cast raise, modelled as
`none`. -/
def castInt64 : PyObject → Option Int
  | .pyBool b => some (if b then 1 else 0)
  | .pyInt v => if -(2 ^ 63) ≤ v ∧ v < 2 ^ 63 then some v else none
  | _ => none

/-- The smallest integer magnitude whose conversion to a double
overflows: CPython's `PyLong_AsDouble` rounds to nearest (ties to even)
and raises `OverflowError` once the rounded value reaches `2 ^ 1024`.
The largest finite double is `2 ^ 1024 - 2 ^ 971`; the midpoint
`2 ^ 1024 - 2 ^ 970` ties and rounds up (the even neighbour is
`2 ^ 1024`), so every int of magnitude at least `2 ^ 1024 - 2 ^ 970`
overflows and every smaller one converts.  Written as a literal so that
kernel evaluation stays shallow; `doubleOverflowBound_eq` certifies it
against the closed form `2 ^ 1024 - 2 ^ 970`. -/
def doubleOverflowBound : Int :=
  179769313486231580793728971405303415079934132710037826936173778980444968292764750946649017977587207096330286416692887910946555547851940402630657488671505820681908902000708383676273854845817711531764475730270069855571366959622842914819860834936475292719074168444365510704342711559699508093042880177904174497792

/-- pybind11's `t[i].cast<float>()` on a tuple item (bindings.cpp
line 127).  The floating-point caster converts via `PyFloat_AsDouble`, so
it accepts Python floats, bools, and ints whose double conversion is
finite; an int at or beyond `doubleOverflowBound` in magnitude makes
`PyLong_AsDouble` raise `OverflowError`, failing the load, and anything
non-numeric raises — both modelled as `none` (the raised `cast_error`).
The subsequent C++ narrowing of the loaded double to `float` never
raises (out-of-range values become infinities), so no `float`-range check
appears here.  Rounding of the payload is not modelled; the storage
width is tracked by `floatKindBits`. -/
def castF32 : PyScalar → Option ℚ
  | .pbool b => some (if b then 1 else 0)
  | .pint v =>
    if -doubleOverflowBound < v ∧ v < doubleOverflowBound then some (v : ℚ) else none
  | .pfloat q => some q
  | _ => none

/-- Outcome of the default-value dispatch chain of `add_value`. -/
inductive ClassifyOut where
  | ok (v : ConfigValue)
  | castFail
  | unsupported
deriving DecidableEq

/-- The `py::isinstance` dispatch chain shared by `add_value`
(bindings.cpp lines 117-131) and `add_special_value` (lines 171-185),
compiled branch by branch:
* `py::isinstance<py::int_>` (`PyLong_Check`) is true for `bool` and
  `int` and runs first, so bools land in the int branch;
* `py::isinstance<py::float_>` (`PyFloat_Check`) catches exactly floats;
* `py::isinstance<py::str>` catches strings;
* `py::isinstance<Hyprlang::SVector2D>` catches the bound vector class;
* a `py::tuple` of length 2 has both items cast with `cast<float>`;
* everything else falls through to the `std::invalid_argument` throw. -/
def classifyDefault : PyObject → ClassifyOut
  | .pyBool b => .ok (.int64 (if b then 1 else 0))
  | .pyInt v => if -(2 ^ 63) ≤ v ∧ v < 2 ^ 63 then .ok (.int64 v) else .castFail
  | .pyFloat q => .ok (.float q)
  | .pyStr s => .ok (.text s)
  | .pySVec x y => .ok (.vec2 x y)
  | .pyTuple [a, b] =>
    match castF32 a, castF32 b with
    | some x, some y => .ok (.vec2 x y)
    | _, _ => .castFail
  | .pyTuple _ => .unsupported
  | .pyNone => .unsupported
  | .pyOther => .unsupported

/-! ## Errors raised at the Python boundary -/

/-- An exception escaping to Python.  `invalidArgument` is the
`std::invalid_argument` of the unsupported-default branches,
`runtimeError` the `std::runtime_error`s of the binding, `castError` a
pybind11 `cast_error`; `alreadyLocked`, `duplicateEntry` and
`noSuchCategory` are the engine's registration-phase errors (spec §4.3,
§7: SchemaError). -/
inductive PyErr where
  | invalidArgument (msg : String)
  | runtimeError (msg : String)
  | castError
  | alreadyLocked
  | duplicateEntry
  | noSuchCategory
deriving DecidableEq

/-! ## Entries and the config state -/

/-- Modelled from the spec: an Entry (§3) — declared kind, current value,
and the `setByUser` flag exposed by the binding as
`ptr->m_bSetByUser` (bindings.cpp line 159). -/
structure Entry where
  kind : ValueKind
  value : ConfigValue
  setByUser : Bool
deriving DecidableEq

/-- Modelled from the spec: an assignment event produced by the text
engine (§4.2), or an opaque engine failure forwarded as an error
message. -/
inductive Event where
  | assign (path : String) (raw : String)
  | engineError (msg : String)
deriving DecidableEq

/-- Modelled from the spec: the state of one `Hyprlang::CConfig` object as
seen through the binding.  Entries are stored flat under their
colon-joined names (§3: a flattened key is the root-to-entry path joined
by `:`).  `source` is the event stream the text engine produces for the
path/stream given to the constructor (bindings.cpp lines 106-114);
`throwAllErrors` and `allowMissingConfig` come from `ConfigOptions`
(lines 78-83). -/
structure Config where
  locked : Bool
  entries : List (String × Entry)
  specials : List (String × List (String × Entry))
  throwAllErrors : Bool
  allowMissingConfig : Bool
  source : List Event
deriving DecidableEq

/-- Modelled from the spec: `register` of the schema tree (§4.3) as
invoked through `CConfig::addConfigValue`.  Fails with `AlreadyLocked`
after `lock()`, with `DuplicateEntry` when the path already names an
entry; otherwise appends the new entry with the default as its initial
value and `setByUser = false`. -/
def addConfigValue (c : Config) (name : String) (v : ConfigValue) : Except PyErr Config :=
  if c.locked then .error .alreadyLocked
  else if (lookupKey name c.entries).isSome then .error .duplicateEntry
  else .ok { c with entries := c.entries ++ [(name, ⟨v.kind, v, false⟩)] }

/-- Modelled from the spec: `addTemplateEntry` of the special-category
bridge (§4.5) as invoked through `CConfig::addSpecialConfigValue`; must
occur before the tree locks and requires a declared category. -/
def addSpecialConfigValue (c : Config) (cat name : String) (v : ConfigValue) :
    Except PyErr Config :=
  if c.locked then .error .alreadyLocked
  else
    match lookupKey cat c.specials with
    | none => .error .noSuchCategory
    | some es =>
      if (lookupKey name es).isSome then .error .duplicateEntry
      else .ok { c with specials := setKey c.specials cat (es ++ [(name, ⟨v.kind, v, false⟩)]) }

/-- The binding's `add_value` (bindings.cpp lines 116-132): classify the
Python default, then register; the fall-through branch throws
`std::invalid_argument` with the message of line 130. -/
def add_value (c : Config) (name : String) (d : PyObject) : Except PyErr Config :=
  match classifyDefault d with
  | .ok v => addConfigValue c name v
  | .castFail => .error .castError
  | .unsupported =>
    .error (.invalidArgument
      "Unsupported default value type. Use int, float, str, SVector2D, or tuple(float, float).")

/-- The binding's `add_special_category` (bindings.cpp lines 162-164):
declares a special category template. -/
def add_special_category (c : Config) (name : String) : Except PyErr Config :=
  if c.locked then .error .alreadyLocked
  else .ok { c with specials := c.specials ++ [(name, [])] }

/-- The binding's `add_special_value` (bindings.cpp lines 170-186): the
same dispatch chain as `add_value`, registering into a special category;
its fall-through message is the shorter one of line 184. -/
def add_special_value (c : Config) (cat name : String) (d : PyObject) : Except PyErr Config :=
  match classifyDefault d with
  | .ok v => addSpecialConfigValue c cat name v
  | .castFail => .error .castError
  | .unsupported => .error (.invalidArgument "Unsupported default value type.")

/-- The binding's `commence` (bindings.cpp line 134), spec §4.3 `lock()`:
transition to locked; a second call finds the state already locked and
changes nothing (idempotent, not an error). -/
def commence (c : Config) : Config := { c with locked := true }

/-! ## Token parsing and coercion (spec §4.1)

The coercion rules live in the hyprlang engine, which is not under
`src/`; they are modelled from the spec.  Engine-preparsed color tokens
(spec §4.1, Int64 rule) reach the core as already-packed integer
literals, so no separate color branch is needed here. -/

/-- Numeric value of a decimal digit, `none` for anything else. -/
def digitVal (c : Char) : Option Nat :=
  if c.isDigit then some (c.toNat - 48) else none

/-- Numeric value of a hexadecimal digit, `none` for anything else. -/
def hexDigitVal (c : Char) : Option Nat :=
  if c.isDigit then some (c.toNat - 48)
  else if 'a' ≤ c ∧ c ≤ 'f' then some (c.toNat - 87)
  else if 'A' ≤ c ∧ c ≤ 'F' then some (c.toNat - 55)
  else none

/-- Fold a nonempty digit list into a natural number with the given base
and per-digit reader; `none` on an empty list or a bad digit. -/
def foldDigits (base : Nat) (rd : Char → Option Nat) : List Char → Option Nat
  | [] => none
  | ds => ds.foldl (fun acc c => acc.bind fun a => (rd c).map fun d => a * base + d) (some 0)

/-- Modelled from the spec: a decimal natural-number token. -/
def parseNatDec (ds : List Char) : Option Nat := foldDigits 10 digitVal ds

/-- Modelled from the spec: an unsigned integer token — decimal, or
`0x`/`0X`-prefixed hexadecimal (§4.1, Int64 rule). -/
def parseNatCore : List Char → Option Nat
  | '0' :: 'x' :: rest => foldDigits 16 hexDigitVal rest
  | '0' :: 'X' :: rest => foldDigits 16 hexDigitVal rest
  | ds => parseNatDec ds

/-- Modelled from the spec: a signed integer literal token. -/
def parseIntLiteral (s : String) : Option Int :=
  match s.data with
  | '-' :: rest => (parseNatCore rest).map fun n => -(n : Int)
  | '+' :: rest => (parseNatCore rest).map fun n => (n : Int)
  | ds => (parseNatCore ds).map fun n => (n : Int)

/-- Modelled from the spec: the boolean tokens accepted by the Int64 kind
(§4.1): `true`/`yes`/`on` coerce to 1, `false`/`no`/`off` to 0. -/
def parseBoolToken : String → Option Int
  | "true" => some 1
  | "yes" => some 1
  | "on" => some 1
  | "false" => some 0
  | "no" => some 0
  | "off" => some 0
  | _ => none

/-- Split a character list at the first dot, if any. -/
def splitOnDot : List Char → List Char × Option (List Char)
  | [] => ([], none)
  | '.' :: rest => ([], some rest)
  | c :: rest =>
    let pr := splitOnDot rest
    (c :: pr.1, pr.2)

/-- Modelled from the spec: an unsigned decimal floating literal —
digits, optionally followed by a dot and a fractional part; at least one
side of the dot must carry digits. -/
def parseFloatCore (ds : List Char) : Option ℚ :=
  match splitOnDot ds with
  | (ip, none) => (parseNatDec ip).map fun n => (n : ℚ)
  | ([], some fp) => (parseNatDec fp).map fun n => (n : ℚ) / (10 ^ fp.length)
  | (ip, some []) => (parseNatDec ip).map fun n => (n : ℚ)
  | (ip, some fp) =>
    (parseNatDec ip).bind fun n =>
      (parseNatDec fp).map fun m => (n : ℚ) + (m : ℚ) / (10 ^ fp.length)

/-- Modelled from the spec: a signed decimal floating literal (§4.1,
Float64 rule of the spec). -/
def parseFloatLiteral (s : String) : Option ℚ :=
  match s.data with
  | '-' :: rest => (parseFloatCore rest).map fun q => -q
  | '+' :: rest => parseFloatCore rest
  | ds => parseFloatCore ds

/-- True for the whitespace separating Vec2 components. -/
def isWsChar (c : Char) : Bool := c = ' ' ∨ c = '\t'

/-- Split a character list on runs of whitespace, dropping empties. -/
def splitWsCore : List Char → List Char → List (List Char)
  | [], acc => if acc = [] then [] else [acc.reverse]
  | c :: cs, acc =>
    if isWsChar c then
      if acc = [] then splitWsCore cs [] else acc.reverse :: splitWsCore cs []
    else splitWsCore cs (c :: acc)

/-- Whitespace-split a raw token into its component tokens. -/
def splitWs (s : String) : List String := (splitWsCore s.data []).map String.mk

/-- Modelled from the spec: a coercion failure (§4.1): `TypeMismatch`
carries the expected kind and the offending token; `ArityMismatch` is the
Vec2 component-count failure. -/
inductive CoercionError where
  | typeMismatch (expected : ValueKind) (gotToken : String)
  | arityMismatch
deriving DecidableEq

/-- Modelled from the spec: `coerce(raw, declaredKind)` (§4.1), rule by
rule: Int64 accepts boolean tokens and integer literals; Float64 accepts
decimal floating literals; Text accepts anything verbatim; Vec2 accepts
exactly two whitespace-separated floating tokens, any other count being
an arity mismatch.  There is no implicit widening between kinds. -/
def coerce (raw : String) (k : ValueKind) : Except CoercionError ConfigValue :=
  match k with
  | .int64 =>
    match parseBoolToken raw with
    | some v => .ok (.int64 v)
    | none =>
      match parseIntLiteral raw with
      | some v => .ok (.int64 v)
      | none => .error (.typeMismatch .int64 raw)
  | .float =>
    match parseFloatLiteral raw with
    | some q => .ok (.float q)
    | none => .error (.typeMismatch .float raw)
  | .text => .ok (.text raw)
  | .vec2 =>
    match splitWs raw with
    | [a, b] =>
      match parseFloatLiteral a, parseFloatLiteral b with
      | some x, some y => .ok (.vec2 x y)
      | _, _ => .error (.typeMismatch .vec2 raw)
    | _ => .error .arityMismatch

/-! ## Applying assignments and running a parse (spec §4.3, §4.6) -/

/-- Modelled from the spec: the message recorded when an assignment names
no registered entry. -/
def missingValueMsg (p : String) : String :=
  "config option <" ++ p ++ "> does not exist."

/-- Modelled from the spec: the message recorded when a token cannot be
coerced to the entry's declared kind. -/
def coerceFailMsg (p raw : String) : String :=
  "failed to parse value <" ++ raw ++ "> for option <" ++ p ++ ">"

/-- Modelled from the spec: the message recorded when a config file could
not be opened. -/
def missingFileMsg (path : String) : String := "could not open file " ++ path

/-- Modelled from the spec: the message recorded for a dynamic line with
no key-value shape. -/
def malformedLineMsg (line : String) : String := "malformed line: " ++ line

/-- Modelled from the spec: `applyAssignment` (§4.3) — look the entry up
by its flattened path, coerce the token against its declared kind; on
success replace the value and set `setByUser`, on failure report a
message and leave the entry untouched. -/
def applyAssignment (c : Config) (p raw : String) : Config × Option String :=
  match lookupKey p c.entries with
  | none => (c, some (missingValueMsg p))
  | some e =>
    match coerce raw e.kind with
    | .error _ => (c, some (coerceFailMsg p raw))
    | .ok v =>
      ({ c with entries := setKey c.entries p { e with value := v, setByUser := true } }, none)

/-- Modelled from the spec: route one text-engine event into the schema
tree (§2, control flow); opaque engine failures are recorded as their
message. -/
def applyEvent (c : Config) : Event → Config × Option String
  | .assign p raw => applyAssignment c p raw
  | .engineError m => (c, some m)

/-- Modelled from the spec: the parse loop with its two error modes
(§4.6): in single-error mode the first failure stops the scan with that
one message; in collect-all mode every failure is appended in encounter
order and scanning continues. -/
def runEvents (throwAll : Bool) : Config → List Event → Config × List String
  | c, [] => (c, [])
  | c, ev :: rest =>
    match applyEvent c ev with
    | (c1, none) => runEvents throwAll c1 rest
    | (c1, some m) =>
      if throwAll then
        let r := runEvents throwAll c1 rest
        (r.1, m :: r.2)
      else (c1, [m])

/-- Modelled from the spec: the ParseResult contract (§3): a failure flag
and the ordered message sequence.  The binding surfaces it as
`ParseResult` with `error` and the joined `error_message`
(bindings.cpp lines 57-76). -/
structure CParseResult where
  error : Bool
  messages : List String
deriving DecidableEq

/-- Modelled from the spec: one parse invocation over an event stream
(§4.6): the invocation ends failed exactly when the message sequence is
nonempty. -/
def runParse (throwAll : Bool) (c : Config) (evs : List Event) : CParseResult × Config :=
  let r := runEvents throwAll c evs
  (⟨!r.2.isEmpty, r.2⟩, r.1)

/-- A modelled filesystem: event streams the text engine would produce
for each path. -/
abbrev FileSys := List (String × List Event)

/-- The binding's `parse` (bindings.cpp line 136): parse the
constructor-given source.  Parse-domain failures land in the returned
ParseResult; the only exception is the programmer error of parsing before
`commence()` (spec §6). -/
def parse (c : Config) : Except PyErr (CParseResult × Config) :=
  if c.locked then .ok (runParse c.throwAllErrors c c.source)
  else .error (.runtimeError "Cannot parse before commence")

/-- The binding's `parse_file` (bindings.cpp lines 138-140): parse
another file.  A missing file is a source error recorded in the result
(or tolerated under `allow_missing_config`), never an exception
(spec §6). -/
def parse_file (fs : FileSys) (c : Config) (path : String) :
    Except PyErr (CParseResult × Config) :=
  if c.locked then
    match lookupKey path fs with
    | some evs => .ok (runParse c.throwAllErrors c evs)
    | none =>
      if c.allowMissingConfig then .ok (⟨false, []⟩, c)
      else .ok (⟨true, [missingFileMsg path]⟩, c)
  else .error (.runtimeError "Cannot parse before commence")

/-- Drop leading whitespace characters. -/
def dropLeadingWs : List Char → List Char
  | [] => []
  | c :: cs => if isWsChar c then dropLeadingWs cs else c :: cs

/-- Trim whitespace from both ends of a character list. -/
def trimChars (cs : List Char) : List Char :=
  ((dropLeadingWs ((dropLeadingWs cs).reverse)).reverse)

/-- Split a character list at its first `=`, if any. -/
def splitFirstEq : List Char → Option (List Char × List Char)
  | [] => none
  | c :: cs =>
    if c = '=' then some ([], cs)
    else (splitFirstEq cs).map fun pr => (c :: pr.1, pr.2)

/-- Modelled from the spec: extract the key-value shape of one dynamic
line. -/
def parseLine (line : String) : Option (String × String) :=
  (splitFirstEq line.data).map fun pr =>
    (String.mk (trimChars pr.1), String.mk (trimChars pr.2))

/-- The binding's `parse_dynamic` (bindings.cpp lines 142-144): route one
line as a single assignment.  A malformed or failing line is a
ParseResult error, never an exception; parsing before `commence()` is the
programmer error (spec §6). -/
def parse_dynamic (c : Config) (line : String) : Except PyErr (CParseResult × Config) :=
  if c.locked then
    match parseLine line with
    | none => .ok (⟨true, [malformedLineMsg line]⟩, c)
    | some kv =>
      let r := applyAssignment c kv.1 kv.2
      .ok (⟨(r.2).isSome, (r.2).toList⟩, r.1)
  else .error (.runtimeError "Cannot parse before commence")

/-! ## Reading values back (bindings.cpp lines 13-35, 150-160) -/

/-- The binding's `anyToPython` (bindings.cpp lines 13-35) restricted to
the values this binding can create: `int64_t` becomes a Python int,
`float` a Python float, the string a Python str, and an `SVector2D` the
tuple of its two components.  (The `void*` and empty-`any` branches are
unreachable for values registered through `add_value`.) -/
def anyToPython : ConfigValue → PyObject
  | .int64 v => .pyInt v
  | .float q => .pyFloat q
  | .text s => .pyStr s
  | .vec2 x y => .pyTuple [.pfloat x, .pfloat y]

/-- The binding's `get_value` (bindings.cpp lines 150-153): a missing
name yields an empty `std::any`, which `anyToPython` renders as
`py::none()`. -/
def get_value (c : Config) (name : String) : PyObject :=
  match lookupKey name c.entries with
  | some e => anyToPython e.value
  | none => .pyNone

/-- The proxy returned by `get_value_info` (bindings.cpp lines 37-40,
98-103): the converted value plus the `set_by_user` flag. -/
structure ConfigValueProxy where
  value : PyObject
  setByUser : Bool
deriving DecidableEq

/-- The binding's `get_value_info` (bindings.cpp lines 155-160): a null
`getConfigValuePtr` makes it throw `std::runtime_error("Config value not
found: " + name)`; otherwise it packages the value and
`m_bSetByUser`. -/
def get_value_info (c : Config) (name : String) : Except PyErr ConfigValueProxy :=
  match lookupKey name c.entries with
  | none => .error (.runtimeError ("Config value not found: " ++ name))
  | some e => .ok ⟨anyToPython e.value, e.setByUser⟩

/-- The message of the unconditional throw in `register_handler`
(bindings.cpp lines 228-231; the apostrophe of the original text is
elided). -/
def registerHandlerMsg : String :=
  "register_handler with Python callables is not yet supported. " ++
  "Use the high-level API on_keyword() or parse with handlers dict instead."

/-- The binding's `register_handler` (bindings.cpp lines 206-232): it
builds a trampoline closure (a side-effect-free construction) and then
unconditionally throws `std::runtime_error` before ever calling
`registerHandler` on the engine, so no handler is installed and no state
changes. -/
def register_handler (_c : Config) (_name : String)
    (_cb : String → String → Option String) (_allowFlags : Bool) : Except PyErr Config :=
  .error (.runtimeError registerHandlerMsg)

/-! ## The operations of one session, as a step function -/

/-- One call a host can make on a `Config` through the binding, for
stating cross-call invariants. -/
inductive Op where
  | opAddValue (name : String) (d : PyObject)
  | opAddSpecialValue (cat name : String) (d : PyObject)
  | opCommence
  | opParse
  | opParseFile (path : String)
  | opParseDynamic (line : String)
  | opRegisterHandler (name : String)
deriving DecidableEq

/-- The state after one binding call: a call that raises leaves the
config as it was. -/
def step (fs : FileSys) (c : Config) : Op → Config
  | .opAddValue n d =>
    match add_value c n d with
    | .ok c1 => c1
    | .error _ => c
  | .opAddSpecialValue cat n d =>
    match add_special_value c cat n d with
    | .ok c1 => c1
    | .error _ => c
  | .opCommence => commence c
  | .opParse =>
    match parse c with
    | .ok r => r.2
    | .error _ => c
  | .opParseFile p =>
    match parse_file fs c p with
    | .ok r => r.2
    | .error _ => c
  | .opParseDynamic l =>
    match parse_dynamic c l with
    | .ok r => r.2
    | .error _ => c
  | .opRegisterHandler n =>
    match register_handler c n (fun _ _ => none) false with
    | .ok c1 => c1
    | .error _ => c

/-! ## The nested schema tree and `toTree` (spec §3, §4.3)

The binding stores entries flat under colon-joined names; the nested
category view and the `toTree()` export belong to the spec's schema-tree
component and the repository's high-level Python layer, which is not
under `src/`.  Everything in this section is modelled from the spec. -/

/-- Modelled from the spec: a Category node (§3) — named entries and
named subcategories, insertion order preserved.  The root category has no
name. -/
inductive Cat where
  | node (entries : List (String × Entry)) (subs : List (String × Cat))

/-- The entries of a category node. -/
def catEntries : Cat → List (String × Entry)
  | .node es _ => es

/-- The subcategories of a category node. -/
def catSubs : Cat → List (String × Cat)
  | .node _ cs => cs

/-- Modelled from the spec: traverse a split path through the tree; the
last segment names an entry, every earlier segment a subcategory
(§4.3 `lookup`). -/
def findPath : Cat → List String → Option Entry
  | _, [] => none
  | .node es cs, n :: ns =>
    match ns with
    | [] => lookupKey n es
    | _ :: _ => (lookupKey n cs).bind fun c => findPath c ns

/-- Modelled from the spec: the NotFound lookup failure (§4.3). -/
inductive LookupErr where
  | notFound
deriving DecidableEq

/-- Modelled from the spec: `lookup(path)` (§4.3), failing with
`NotFound` when the traversal finds no entry. -/
def lookupPath (t : Cat) (p : List String) : Except LookupErr Entry :=
  match findPath t p with
  | some e => .ok e
  | none => .error .notFound

/-- Some colon-separated segment of the path names neither a registered
subcategory (non-final segment) nor a registered entry (final segment)
at its position in the traversal. -/
def pathMissing : Cat → List String → Bool
  | _, [] => false
  | t, n :: ns =>
    match ns with
    | [] => (lookupKey n (catEntries t)).isNone
    | _ :: _ =>
      match lookupKey n (catSubs t) with
      | none => true
      | some c => pathMissing c ns

/-- Split a character list on colons; never returns an empty list and
drops nothing. -/
def colonSplitCore : List Char → List Char → List (List Char)
  | [], acc => [acc.reverse]
  | c :: cs, acc =>
    if c = ':' then acc.reverse :: colonSplitCore cs []
    else colonSplitCore cs (c :: acc)

/-- Split a flattened key on `:` into its path segments (§3: a flattened
key is the root-to-entry path joined by `:`). -/
def colonSplit (s : String) : List String := (colonSplitCore s.data []).map String.mk

/-- Join path segments with `:` at the character level. -/
def colonJoinCore : List (List Char) → List Char
  | [] => []
  | [p] => p
  | p :: ps => p ++ ':' :: colonJoinCore ps

/-- Join path segments into a flattened colon key. -/
def colonJoin (ps : List String) : String := String.mk (colonJoinCore (ps.map String.data))

/-- First-match lookup of a full segment path in a flat entry list. -/
def plookup {α : Type} (p : List String) : List (List String × α) → Option α
  | [] => none
  | kv :: rest => if kv.1 = p then some kv.2 else plookup p rest

/-- The entries of a config, keyed by split path instead of flattened
name. -/
def configPairs (c : Config) : List (List String × Entry) :=
  c.entries.map fun pe => (colonSplit pe.1, pe.2)

/-- The leaf entries of a flat list: those whose path is a single
segment. -/
def leaves (l : List (List String × Entry)) : List (String × Entry) :=
  l.filterMap fun pe =>
    match pe.1 with
    | [n] => some (n, pe.2)
    | _ => none

/-- The distinct first segments of the multi-segment paths, in first-seen
order up to deduplication. -/
def headsOf (l : List (List String × Entry)) : List String :=
  (l.filterMap fun pe =>
    match pe.1 with
    | n :: _ :: _ => some n
    | _ => none).dedup

/-- The entries living under a given first segment, with that segment
stripped. -/
def tailsFor (n : String) (l : List (List String × Entry)) : List (List String × Entry) :=
  l.filterMap fun pe =>
    match pe.1 with
    | m :: r :: rest => if m = n then some (r :: rest, pe.2) else none
    | _ => none

/-- The longest path length in a flat entry list. -/
def maxDepth : List (List String × Entry) → Nat
  | [] => 0
  | pe :: rest => max pe.1.length (maxDepth rest)

/-- Modelled from the spec: rebuild the nested mapping from flat entries,
recursing on a depth bound (`maxDepth` suffices, see `toTree`): leaves
stay at this node, longer paths are grouped under their first segment. -/
def toTreeFuel : Nat → List (List String × Entry) → Cat
  | 0, _ => .node [] []
  | fuel + 1, l =>
    .node (leaves l) ((headsOf l).map fun n => (n, toTreeFuel fuel (tailsFor n l)))

/-- Modelled from the spec: `toTree()` (§4.3) — reconstruct the
nested-dict view from the flat entry structure. -/
def toTree (l : List (List String × Entry)) : Cat := toTreeFuel (maxDepth l) l

/-- Modelled from the spec: the high-level `to_tree` export of a config:
split every flattened name on colons and nest. -/
def to_tree (c : Config) : Cat := toTree (configPairs c)

/-! ## The claims' own classifications, for comparison

These two definitions follow the words of claim C1 rather than the
source; they exist only to be compared against `classifyDefault`. -/

/-- The default-to-kind mapping exactly as claim C1 states it: int maps
to Int64 (Python bools are ints, claim C10), float to Float64, str to
Text, `SVector2D` or a 2-tuple of floats to Vec2; every other shape is
`none`, which the claim says must raise. -/
def claimListedKind : PyObject → Option ValueKind
  | .pyBool _ => some .int64
  | .pyInt _ => some .int64
  | .pyFloat _ => some .float
  | .pyStr _ => some .text
  | .pySVec _ _ => some .vec2
  | .pyTuple [.pfloat _, .pfloat _] => some .vec2
  | _ => none

/-- True when pybind11's converting `cast<float>` accepts the scalar:
floats and bools always convert, an int converts exactly when its double
conversion is finite (magnitude below `doubleOverflowBound`), and
everything else raises. -/
def floatConvertible : PyScalar → Bool
  | .pbool _ => true
  | .pint v => if -doubleOverflowBound < v ∧ v < doubleOverflowBound then true else false
  | .pfloat _ => true
  | _ => false

/-- The amended default-to-kind mapping actually implemented by the
binding: ints (bools included) within the `int64_t` range map to Int64,
floats to the float kind, strings to Text, `SVector2D` to Vec2, and a
2-tuple of float-convertible values (floats, bools, or ints converting
to a finite double) to Vec2; `none` means the call raises. -/
def bindingDefaultKind : PyObject → Option ValueKind
  | .pyBool _ => some .int64
  | .pyInt v => if -(2 ^ 63) ≤ v ∧ v < 2 ^ 63 then some .int64 else none
  | .pyFloat _ => some .float
  | .pyStr _ => some .text
  | .pySVec _ _ => some .vec2
  | .pyTuple l => if l.length = 2 ∧ l.all floatConvertible then some .vec2 else none
  | _ => none

/-! ## Concrete configurations used by witnesses -/

/-- A fresh, unlocked, empty config (no options set). -/
def cfg0 : Config := ⟨false, [], [], false, false, []⟩

/-- A commenced config with one Int64 entry `a` whose source holds two
malformed assignments to it. -/
def cfgTwoBad : Config :=
  ⟨true, [("a", ⟨.int64, .int64 0, false⟩)], [], false, false,
    [.assign "a" "x1", .assign "a" "x2"]⟩

/-- An unlocked config with one freshly registered Int64 entry `a`. -/
def cfgReg : Config := ⟨false, [("a", ⟨.int64, .int64 3, false⟩)], [], false, false, []⟩

/-- `cfgReg` after the assignment `a = 7` was committed. -/
def cfgSet : Config := ⟨false, [("a", ⟨.int64, .int64 7, true⟩)], [], false, false, []⟩

/-- `cfgSet`, commenced. -/
def cfgSetLocked : Config := ⟨true, [("a", ⟨.int64, .int64 7, true⟩)], [], false, false, []⟩

/-- A two-level tree with the single entry `general:border_size`. -/
def catGeneral : Cat :=
  .node [] [("general", .node [("border_size", ⟨.int64, .int64 3, false⟩)] [])]

/-- Failure message of one assignment given the declared kind found at
its path (`none` in the first argument meaning the path is
unregistered). -/
def evFailKind (k? : Option ValueKind) (p raw : String) : Option String :=
  match k? with
  | none => some (missingValueMsg p)
  | some k =>
    match coerce raw k with
    | .ok _ => none
    | .error _ => some (coerceFailMsg p raw)

/-- Whether one event fails against a config, and with which message:
engine errors always fail; an assignment fails when its path is
unregistered or its token does not coerce to the entry's declared kind.
Since a parse pass never changes entry names or kinds, this predicate is
invariant across the pass and characterizes the messages `runEvents`
collects. -/
def evFail (c : Config) : Event → Option String
  | .engineError m => some m
  | .assign p raw => evFailKind ((lookupKey p c.entries).map Entry.kind) p raw

/-! ## Association-list lemmas -/

theorem lookupKey_append_of_some {κ α : Type} [DecidableEq κ] {n : κ} {l1 l2 : List (κ × α)}
    {a : α} (h : lookupKey n l1 = some a) : lookupKey n (l1 ++ l2) = some a := by
  induction l1 with
  | nil => simp [lookupKey] at h
  | cons kv rest ih =>
    simp only [lookupKey, List.cons_append] at h ⊢
    split at h <;> simp_all

theorem lookupKey_append_self {κ α : Type} [DecidableEq κ] {n : κ} {l1 : List (κ × α)}
    {a : α} (h : lookupKey n l1 = none) : lookupKey n (l1 ++ [(n, a)]) = some a := by
  induction l1 with
  | nil => simp [lookupKey]
  | cons kv rest ih =>
    simp only [lookupKey, List.cons_append] at h ⊢
    split at h <;> simp_all

theorem setKey_cons {κ α : Type} [DecidableEq κ] (kv : κ × α) (rest : List (κ × α))
    (q : κ) (a : α) :
    setKey (kv :: rest) q a = (if kv.1 = q then (kv.1, a) else kv) :: setKey rest q a := rfl

theorem lookupKey_setKey {κ α : Type} [DecidableEq κ] (l : List (κ × α)) (p q : κ) (a : α) :
    lookupKey p (setKey l q a) =
      if p = q then (lookupKey p l).map fun _ => a else lookupKey p l := by
  induction l with
  | nil => simp [lookupKey, setKey]
  | cons kv rest ih =>
    rw [setKey_cons]
    by_cases hkq : kv.1 = q
    · by_cases hpq : p = q
      · subst hpq
        simp [lookupKey, hkq, ih]
      · have hkp : ¬kv.1 = p := fun hcontra => hpq (by rw [← hcontra]; exact hkq)
        have hqp : ¬q = p := fun hcontra => hpq hcontra.symm
        simp [lookupKey, hkq, hkp, hpq, hqp, ih]
    · by_cases hpq : p = q
      · subst hpq
        simp [lookupKey, hkq, ih]
      · by_cases hkp : kv.1 = p
        · simp [lookupKey, hkq, hkp, hpq]
        · simp [lookupKey, hkq, hkp, hpq, ih]

theorem lookupKey_map_snd {κ α β : Type} [DecidableEq κ] (l : List (κ × α)) (f : α → β)
    (n : κ) :
    lookupKey n (l.map fun kv => (kv.1, f kv.2)) = (lookupKey n l).map f := by
  induction l with
  | nil => simp [lookupKey]
  | cons kv rest ih =>
    simp only [List.map_cons, lookupKey]
    split <;> simp [*]

theorem lookupKey_map_keys {α : Type} (keys : List String) (f : String → α) (n : String) :
    lookupKey n (keys.map fun k => (k, f k)) =
      if n ∈ keys then some (f n) else none := by
  induction keys with
  | nil => simp [lookupKey]
  | cons k rest ih =>
    simp only [List.map_cons, lookupKey]
    by_cases hk : k = n
    · subst hk
      simp
    · simp [hk, ih, Ne.symm hk]

/-! ## Classification lemmas -/

theorem doubleOverflowBound_eq : doubleOverflowBound = 2 ^ 1024 - 2 ^ 970 := by
  norm_num [doubleOverflowBound]

theorem castF32_isSome (a : PyScalar) : (castF32 a).isSome = floatConvertible a := by
  cases a with
  | pint v =>
    show (if -doubleOverflowBound < v ∧ v < doubleOverflowBound
        then some ((v : ℚ)) else none).isSome =
      if -doubleOverflowBound < v ∧ v < doubleOverflowBound then true else false
    by_cases h : -doubleOverflowBound < v ∧ v < doubleOverflowBound
    · rw [if_pos h, if_pos h]
      rfl
    · rw [if_neg h, if_neg h]
      rfl
  | pbool b => rfl
  | pfloat q => rfl
  | pstr s => rfl
  | pnone => rfl
  | pother => rfl

theorem bindingKind_spec (d : PyObject) :
    bindingDefaultKind d =
      match classifyDefault d with
      | .ok v => some v.kind
      | _ => none := by
  cases d with
  | pyBool b => rfl
  | pyInt v =>
    simp only [bindingDefaultKind, classifyDefault]
    by_cases h : -(2 ^ 63) ≤ v ∧ v < 2 ^ 63
    · rw [if_pos h, if_pos h]
      rfl
    · rw [if_neg h, if_neg h]
  | pyFloat q => rfl
  | pyStr s => rfl
  | pySVec x y => rfl
  | pyNone => rfl
  | pyOther => rfl
  | pyTuple l =>
    match l with
    | [] => rfl
    | [a] => simp [bindingDefaultKind, classifyDefault]
    | a :: b :: c :: rest => simp [bindingDefaultKind, classifyDefault]
    | [a, b] =>
      have ha := castF32_isSome a
      have hb2 := castF32_isSome b
      simp only [bindingDefaultKind, classifyDefault]
      cases hca : castF32 a with
      | none =>
        have hfa : floatConvertible a = false := by rw [← ha, hca]; rfl
        cases hcb : castF32 b with
        | none =>
          have hfb : floatConvertible b = false := by rw [← hb2, hcb]; rfl
          simp [List.all_cons, hfa, hfb]
        | some y =>
          have hfb : floatConvertible b = true := by rw [← hb2, hcb]; rfl
          simp [List.all_cons, hfa, hfb]
      | some x =>
        have hfa : floatConvertible a = true := by rw [← ha, hca]; rfl
        cases hcb : castF32 b with
        | none =>
          have hfb : floatConvertible b = false := by rw [← hb2, hcb]; rfl
          simp [List.all_cons, hfa, hfb]
        | some y =>
          have hfb : floatConvertible b = true := by rw [← hb2, hcb]; rfl
          simp [List.all_cons, hfa, hfb, ConfigValue.kind]

theorem bindingKind_of_ok {d : PyObject} {v : ConfigValue}
    (h : classifyDefault d = .ok v) : bindingDefaultKind d = some v.kind := by
  have hb := bindingKind_spec d
  rw [h] at hb
  exact hb

theorem bindingKind_of_not_ok {d : PyObject}
    (h1 : classifyDefault d = .castFail ∨ classifyDefault d = .unsupported) :
    bindingDefaultKind d = none := by
  have hb := bindingKind_spec d
  rcases h1 with h | h <;> rw [h] at hb <;> exact hb

theorem coerce_kind {raw : String} {k : ValueKind} {v : ConfigValue}
    (h : coerce raw k = .ok v) : v.kind = k := by
  cases k <;> simp only [coerce] at h <;> repeat' split at h
  all_goals cases h
  all_goals rfl

/-! ## Registration lemmas -/

theorem addConfigValue_ok {c : Config} {name : String} {v : ConfigValue} {c1 : Config}
    (h : addConfigValue c name v = .ok c1) :
    c.locked = false ∧ lookupKey name c.entries = none ∧
      c1 = { c with entries := c.entries ++ [(name, ⟨v.kind, v, false⟩)] } := by
  unfold addConfigValue at h
  split at h
  · cases h
  · split at h
    · cases h
    · rename_i hl hf
      injection h with h1
      refine ⟨by simpa using hl, ?_, h1.symm⟩
      cases hx : lookupKey name c.entries with
      | none => rfl
      | some e => rw [hx] at hf; simp at hf

theorem addConfigValue_ok_of {c : Config} {name : String} (v : ConfigValue)
    (hl : c.locked = false) (hf : lookupKey name c.entries = none) :
    addConfigValue c name v =
      .ok { c with entries := c.entries ++ [(name, ⟨v.kind, v, false⟩)] } := by
  unfold addConfigValue
  rw [hl, hf]
  rfl

theorem addSpecialConfigValue_ok_of {c : Config} {cat name : String} (v : ConfigValue)
    {es : List (String × Entry)} (hl : c.locked = false)
    (hes : lookupKey cat c.specials = some es) (hfs : lookupKey name es = none) :
    addSpecialConfigValue c cat name v =
      .ok { c with specials := setKey c.specials cat (es ++ [(name, ⟨v.kind, v, false⟩)]) } := by
  unfold addSpecialConfigValue
  rw [if_neg (by rw [hl]; simp)]
  split
  · rename_i hnone
    rw [hes] at hnone
    cases hnone
  · rename_i es2 hes2
    rw [hes] at hes2
    injection hes2 with he2
    subst he2
    rw [if_neg (by rw [hfs]; simp)]

/-! ## How one entry evolves across binding calls

These lemmas track a single registered entry through every operation: its
declared kind never changes, and a `setByUser` flag that is true never
reverts.  They are shared by the proofs of the kind-immutability and
`setByUser`-monotonicity claims. -/

theorem applyAssignment_entry (c : Config) (q raw p : String) {e : Entry}
    (h : lookupKey p c.entries = some e) :
    ∃ e1, lookupKey p ((applyAssignment c q raw).1).entries = some e1 ∧
      e1.kind = e.kind ∧ (e.setByUser = true → e1.setByUser = true) := by
  unfold applyAssignment
  split
  · exact ⟨e, h, rfl, fun hs => hs⟩
  · rename_i e0 hq
    split
    · exact ⟨e, h, rfl, fun hs => hs⟩
    · rename_i v hc
      by_cases hpq : p = q
      · subst hpq
        rw [h] at hq
        injection hq with he
        refine ⟨{ e0 with value := v, setByUser := true }, ?_, ?_, ?_⟩
        · show lookupKey p (setKey c.entries p _) = _
          rw [lookupKey_setKey, if_pos rfl, h]
          rfl
        · simp [he]
        · intro _
          rfl
      · refine ⟨e, ?_, rfl, fun hs => hs⟩
        show lookupKey p (setKey c.entries q _) = _
        rw [lookupKey_setKey, if_neg hpq, h]

theorem applyEvent_entry (c : Config) (ev : Event) (p : String) {e : Entry}
    (h : lookupKey p c.entries = some e) :
    ∃ e1, lookupKey p ((applyEvent c ev).1).entries = some e1 ∧
      e1.kind = e.kind ∧ (e.setByUser = true → e1.setByUser = true) := by
  cases ev with
  | assign q raw => exact applyAssignment_entry c q raw p h
  | engineError m => exact ⟨e, h, rfl, fun hs => hs⟩

theorem runEvents_entry (throwAll : Bool) (evs : List Event) :
    ∀ (c : Config) (p : String) (e : Entry), lookupKey p c.entries = some e →
    ∃ e1, lookupKey p ((runEvents throwAll c evs).1).entries = some e1 ∧
      e1.kind = e.kind ∧ (e.setByUser = true → e1.setByUser = true) := by
  induction evs with
  | nil =>
    intro c p e h
    exact ⟨e, h, rfl, fun hs => hs⟩
  | cons ev rest ih =>
    intro c p e h
    obtain ⟨e1, h1, hk1, hs1⟩ := applyEvent_entry c ev p h
    cases hae : applyEvent c ev with
    | mk c1 msg =>
      rw [hae] at h1
      cases msg with
      | none =>
        simp only [runEvents, hae]
        obtain ⟨e2, h2, hk2, hs2⟩ := ih c1 p e1 h1
        exact ⟨e2, h2, hk2.trans hk1, fun hs => hs2 (hs1 hs)⟩
      | some m =>
        simp only [runEvents, hae]
        by_cases ht : throwAll = true
        · rw [if_pos ht]
          obtain ⟨e2, h2, hk2, hs2⟩ := ih c1 p e1 h1
          exact ⟨e2, h2, hk2.trans hk1, fun hs => hs2 (hs1 hs)⟩
        · rw [if_neg ht]
          exact ⟨e1, h1, hk1, hs1⟩

theorem step_entry (fs : FileSys) (c : Config) (op : Op) (p : String) {e : Entry}
    (h : lookupKey p c.entries = some e) :
    ∃ e1, lookupKey p (step fs c op).entries = some e1 ∧
      e1.kind = e.kind ∧ (e.setByUser = true → e1.setByUser = true) := by
  cases op with
  | opAddValue n d =>
    simp only [step]
    cases hav : add_value c n d with
    | error err => exact ⟨e, h, rfl, fun hs => hs⟩
    | ok c1 =>
      unfold add_value at hav
      cases hcd : classifyDefault d with
      | ok v =>
        rw [hcd] at hav
        obtain ⟨hl, hf, hc1⟩ := addConfigValue_ok hav
        subst hc1
        exact ⟨e, lookupKey_append_of_some h, rfl, fun hs => hs⟩
      | castFail =>
        rw [hcd] at hav
        cases hav
      | unsupported =>
        rw [hcd] at hav
        cases hav
  | opAddSpecialValue cat n d =>
    simp only [step]
    cases hav : add_special_value c cat n d with
    | error err => exact ⟨e, h, rfl, fun hs => hs⟩
    | ok c1 =>
      have hent : c1.entries = c.entries := by
        unfold add_special_value addSpecialConfigValue at hav
        repeat' split at hav
        all_goals cases hav
        all_goals rfl
      rw [hent]
      exact ⟨e, h, rfl, fun hs => hs⟩
  | opCommence => exact ⟨e, h, rfl, fun hs => hs⟩
  | opParse =>
    simp only [step, parse]
    by_cases hl : c.locked = true
    · rw [if_pos hl]
      exact runEvents_entry c.throwAllErrors c.source c p e h
    · rw [if_neg hl]
      exact ⟨e, h, rfl, fun hs => hs⟩
  | opParseFile path =>
    simp only [step, parse_file]
    by_cases hl : c.locked = true
    · rw [if_pos hl]
      cases hfs : lookupKey path fs with
      | some evs => exact runEvents_entry c.throwAllErrors evs c p e h
      | none =>
        by_cases hm : c.allowMissingConfig = true
        · rw [if_pos hm]
          exact ⟨e, h, rfl, fun hs => hs⟩
        · rw [if_neg hm]
          exact ⟨e, h, rfl, fun hs => hs⟩
    · rw [if_neg hl]
      exact ⟨e, h, rfl, fun hs => hs⟩
  | opParseDynamic line =>
    simp only [step, parse_dynamic]
    by_cases hl : c.locked = true
    · rw [if_pos hl]
      cases hpl : parseLine line with
      | none => exact ⟨e, h, rfl, fun hs => hs⟩
      | some kv => exact applyAssignment_entry c kv.1 kv.2 p h
    · rw [if_neg hl]
      exact ⟨e, h, rfl, fun hs => hs⟩
  | opRegisterHandler n => exact ⟨e, h, rfl, fun hs => hs⟩

/-! ## Characterizing the messages a parse pass produces -/

theorem applyEvent_msg (c : Config) (ev : Event) : (applyEvent c ev).2 = evFail c ev := by
  cases ev with
  | engineError m => rfl
  | assign p raw =>
    show (applyAssignment c p raw).2 = evFail c (.assign p raw)
    simp only [evFail]
    unfold applyAssignment
    split
    · rename_i heq
      rw [heq]
      rfl
    · rename_i e0 heq
      rw [heq]
      unfold evFailKind
      simp only [Option.map_some']
      split <;> rename_i h2 <;> rw [h2]

theorem applyEvent_kindAt (c : Config) (ev : Event) (p : String) :
    (lookupKey p ((applyEvent c ev).1).entries).map Entry.kind =
      (lookupKey p c.entries).map Entry.kind := by
  cases ev with
  | engineError m => rfl
  | assign q raw =>
    show (lookupKey p ((applyAssignment c q raw).1).entries).map Entry.kind = _
    unfold applyAssignment
    split
    · rfl
    · rename_i e0 hq
      split
      · rfl
      · rename_i v hc
        show (lookupKey p (setKey c.entries q _)).map Entry.kind = _
        rw [lookupKey_setKey]
        by_cases hpq : p = q
        · subst hpq
          rw [if_pos rfl, hq]
          rfl
        · rw [if_neg hpq]

theorem evFail_ext {c1 c2 : Config}
    (h : ∀ p, (lookupKey p c1.entries).map Entry.kind =
      (lookupKey p c2.entries).map Entry.kind)
    (ev : Event) : evFail c1 ev = evFail c2 ev := by
  cases ev with
  | engineError m => rfl
  | assign p raw =>
    show evFailKind _ p raw = evFailKind _ p raw
    rw [h p]

theorem runEvents_msgs_all (evs : List Event) : ∀ c : Config,
    (runEvents true c evs).2 = evs.filterMap (evFail c) := by
  induction evs with
  | nil =>
    intro c
    rfl
  | cons ev rest ih =>
    intro c
    have hmsg := applyEvent_msg c ev
    cases hae : applyEvent c ev with
    | mk c1 msg =>
      rw [hae] at hmsg
      have hfun : evFail c1 = evFail c := by
        funext ev2
        apply evFail_ext
        intro p
        have hk := applyEvent_kindAt c ev p
        rw [hae] at hk
        exact hk
      cases msg with
      | none =>
        simp only [runEvents, hae]
        rw [ih c1, hfun, List.filterMap_cons, ← hmsg]
      | some m =>
        have hm2 : evFail c ev = some m := hmsg.symm
        simp only [runEvents, hae, eq_self_iff_true, if_true]
        rw [ih c1, hfun, List.filterMap_cons, hm2]

theorem runEvents_msgs_single (evs : List Event) : ∀ c : Config,
    (runEvents false c evs).2 = (evs.filterMap (evFail c)).take 1 := by
  induction evs with
  | nil =>
    intro c
    rfl
  | cons ev rest ih =>
    intro c
    have hmsg := applyEvent_msg c ev
    cases hae : applyEvent c ev with
    | mk c1 msg =>
      rw [hae] at hmsg
      have hfun : evFail c1 = evFail c := by
        funext ev2
        apply evFail_ext
        intro p
        have hk := applyEvent_kindAt c ev p
        rw [hae] at hk
        exact hk
      cases msg with
      | none =>
        simp only [runEvents, hae]
        rw [ih c1, hfun, List.filterMap_cons, ← hmsg]
      | some m =>
        have hm2 : evFail c ev = some m := hmsg.symm
        simp only [runEvents, hae]
        rw [if_neg (by simp), List.filterMap_cons, hm2]
        rfl

/-! ## Lookup failure along a path -/

theorem pathMissing_findPath (p : List String) : ∀ t : Cat, p ≠ [] →
    pathMissing t p = true → findPath t p = none := by
  induction p with
  | nil =>
    intro t h
    exact absurd rfl h
  | cons n ns ih =>
    intro t _ hm
    cases t with
    | node es cs =>
      cases ns with
      | nil =>
        simp only [pathMissing, catEntries] at hm
        simp only [findPath]
        exact Option.isNone_iff_eq_none.mp hm
      | cons m ns2 =>
        simp only [pathMissing, catSubs] at hm
        simp only [findPath]
        cases hs : lookupKey n cs with
        | none => rfl
        | some c2 =>
          rw [hs] at hm
          show (some c2).bind _ = none
          simp only [Option.some_bind]
          exact ih c2 (by simp) hm

/-! ## The nested view agrees with the flat store -/

theorem plookup_nil {α : Type} (l : List (List String × α)) (h : ∀ pe ∈ l, pe.1 ≠ []) :
    plookup ([] : List String) l = none := by
  induction l with
  | nil => rfl
  | cons pe rest ih =>
    simp only [plookup]
    rw [if_neg (h pe (List.mem_cons_self pe rest))]
    exact ih fun x hx => h x (List.mem_cons_of_mem pe hx)

theorem plookup_mem {α : Type} {l : List (List String × α)} {p : List String} {a : α}
    (h : plookup p l = some a) : (p, a) ∈ l := by
  induction l with
  | nil => cases h
  | cons pe rest ih =>
    simp only [plookup] at h
    split at h
    · rename_i hp
      injection h with ha
      exact List.mem_cons.mpr (Or.inl (by cases pe; simp_all))
    · exact List.mem_cons_of_mem pe (ih h)

theorem depth_le {pe : List String × Entry} {l : List (List String × Entry)} (h : pe ∈ l) :
    pe.1.length ≤ maxDepth l := by
  induction l with
  | nil => cases h
  | cons q rest ih =>
    simp only [maxDepth]
    rcases List.mem_cons.mp h with h1 | h1
    · rw [h1]
      exact le_max_left _ _
    · exact le_trans (ih h1) (le_max_right _ _)

theorem maxDepth_le {l : List (List String × Entry)} {n : Nat}
    (h : ∀ pe ∈ l, pe.1.length ≤ n) : maxDepth l ≤ n := by
  induction l with
  | nil => exact Nat.zero_le n
  | cons q rest ih =>
    simp only [maxDepth, max_le_iff]
    exact ⟨h q (List.mem_cons_self q rest), ih fun pe hpe => h pe (List.mem_cons_of_mem q hpe)⟩

theorem tailsFor_cons_hit (n m r : String) (rest2 : List String) (ae : Entry)
    (rest : List (List String × Entry)) (h : m = n) :
    tailsFor n ((m :: r :: rest2, ae) :: rest) = (r :: rest2, ae) :: tailsFor n rest := by
  simp [tailsFor, List.filterMap_cons, h]

theorem tailsFor_cons_miss (n m r : String) (rest2 : List String) (ae : Entry)
    (rest : List (List String × Entry)) (h : ¬m = n) :
    tailsFor n ((m :: r :: rest2, ae) :: rest) = tailsFor n rest := by
  simp [tailsFor, List.filterMap_cons, h]

theorem tailsFor_path_ne_nil (n : String) : ∀ (l : List (List String × Entry)) (pe),
    pe ∈ tailsFor n l → pe.1 ≠ [] := by
  intro l
  induction l with
  | nil =>
    intro pe hpe
    cases hpe
  | cons a rest ih =>
    intro pe hpe
    rcases a with ⟨ap, ae⟩
    cases ap with
    | nil => exact ih pe hpe
    | cons m ap2 =>
      cases ap2 with
      | nil => exact ih pe hpe
      | cons r rest2 =>
        by_cases hm : m = n
        · rw [tailsFor_cons_hit n m r rest2 ae rest hm] at hpe
          rcases List.mem_cons.mp hpe with h1 | h1
          · rw [h1]
            simp
          · exact ih pe h1
        · rw [tailsFor_cons_miss n m r rest2 ae rest hm] at hpe
          exact ih pe hpe

theorem maxDepth_tailsFor (n : String) (fuel : Nat) : ∀ (l : List (List String × Entry)),
    maxDepth l ≤ fuel + 1 → maxDepth (tailsFor n l) ≤ fuel := by
  intro l
  induction l with
  | nil =>
    intro _
    exact Nat.zero_le fuel
  | cons a rest ih =>
    intro h
    simp only [maxDepth, max_le_iff] at h
    obtain ⟨h1, h2⟩ := h
    rcases a with ⟨ap, ae⟩
    cases ap with
    | nil => exact ih h2
    | cons m ap2 =>
      cases ap2 with
      | nil => exact ih h2
      | cons r rest2 =>
        by_cases hm : m = n
        · rw [tailsFor_cons_hit n m r rest2 ae rest hm]
          simp only [maxDepth, max_le_iff]
          constructor
          · simp only [List.length_cons] at h1 ⊢
            omega
          · exact ih h2
        · rw [tailsFor_cons_miss n m r rest2 ae rest hm]
          exact ih h2

theorem lookup_leaves (n : String) : ∀ (l : List (List String × Entry)),
    (∀ pe ∈ l, pe.1 ≠ []) → lookupKey n (leaves l) = plookup [n] l := by
  intro l
  induction l with
  | nil =>
    intro _
    rfl
  | cons pe rest ih =>
    intro h
    rcases pe with ⟨ap, ae⟩
    cases ap with
    | nil => exact absurd rfl (h ([], ae) (List.mem_cons_self _ _))
    | cons m ap2 =>
      cases ap2 with
      | nil =>
        show lookupKey n ((m, ae) :: leaves rest) = plookup [n] (([m], ae) :: rest)
        simp only [lookupKey, plookup]
        by_cases hm : m = n
        · subst hm
          rw [if_pos rfl, if_pos rfl]
        · rw [if_neg hm, if_neg (by simp [hm])]
          exact ih fun x hx => h x (List.mem_cons_of_mem _ hx)
      | cons r rest2 =>
        show lookupKey n (leaves rest) = plookup [n] ((m :: r :: rest2, ae) :: rest)
        simp only [plookup]
        rw [if_neg (by simp)]
        exact ih fun x hx => h x (List.mem_cons_of_mem _ hx)

theorem head_mem_headsOf {l : List (List String × Entry)} {n r : String}
    {rest2 : List String} {e : Entry} (h : (n :: r :: rest2, e) ∈ l) : n ∈ headsOf l := by
  unfold headsOf
  rw [List.mem_dedup]
  exact List.mem_filterMap.mpr ⟨(n :: r :: rest2, e), h, rfl⟩

theorem plookup_long_none {l : List (List String × Entry)} {n r : String}
    {rest2 : List String} (h : n ∉ headsOf l) : plookup (n :: r :: rest2) l = none := by
  cases hp : plookup (n :: r :: rest2) l with
  | none => rfl
  | some e => exact absurd (head_mem_headsOf (plookup_mem hp)) h

theorem plookup_tailsFor (n r : String) (rest2 : List String) :
    ∀ l : List (List String × Entry),
    plookup (r :: rest2) (tailsFor n l) = plookup (n :: r :: rest2) l := by
  intro l
  induction l with
  | nil => rfl
  | cons pe rest ih =>
    rcases pe with ⟨ap, ae⟩
    cases ap with
    | nil =>
      show plookup (r :: rest2) (tailsFor n rest) =
        plookup (n :: r :: rest2) ((([] : List String), ae) :: rest)
      simp only [plookup]
      rw [if_neg (by simp)]
      exact ih
    | cons m ap2 =>
      cases ap2 with
      | nil =>
        show plookup (r :: rest2) (tailsFor n rest) =
          plookup (n :: r :: rest2) (([m], ae) :: rest)
        simp only [plookup]
        rw [if_neg (by simp)]
        exact ih
      | cons q qs =>
        by_cases hm : m = n
        · subst hm
          rw [tailsFor_cons_hit m m q qs ae rest rfl]
          simp only [plookup]
          by_cases he : q :: qs = r :: rest2
          · rw [if_pos he, if_pos (by rw [he])]
          · rw [if_neg he, if_neg (by simp [he]), ih]
        · rw [tailsFor_cons_miss n m q qs ae rest hm]
          simp only [plookup]
          rw [if_neg (by simp [hm]), ih]

theorem findPath_toTreeFuel (p : List String) : ∀ (fuel : Nat)
    (l : List (List String × Entry)), (∀ pe ∈ l, pe.1 ≠ []) → maxDepth l ≤ fuel →
    findPath (toTreeFuel fuel l) p = plookup p l := by
  induction p with
  | nil =>
    intro fuel l h _
    rw [plookup_nil l h]
    cases fuel <;> rfl
  | cons n ns ih =>
    intro fuel l h hd
    cases fuel with
    | zero =>
      have hnone : plookup (n :: ns) l = none := by
        cases hp : plookup (n :: ns) l with
        | none => rfl
        | some e =>
          have hlen := depth_le (plookup_mem hp)
          simp only [List.length_cons] at hlen
          omega
      rw [hnone]
      cases ns <;> rfl
    | succ f =>
      cases ns with
      | nil => exact lookup_leaves n l h
      | cons m ns2 =>
        show (lookupKey n ((headsOf l).map fun nm => (nm, toTreeFuel f (tailsFor nm l)))).bind
          (fun c => findPath c (m :: ns2)) = plookup (n :: m :: ns2) l
        rw [lookupKey_map_keys]
        by_cases hmem : n ∈ headsOf l
        · rw [if_pos hmem]
          show findPath (toTreeFuel f (tailsFor n l)) (m :: ns2) = _
          rw [ih f (tailsFor n l) (tailsFor_path_ne_nil n l) (maxDepth_tailsFor n f l hd)]
          exact plookup_tailsFor n m ns2 l
        · rw [if_neg hmem]
          exact (plookup_long_none hmem).symm

theorem findPath_toTree (l : List (List String × Entry)) (h : ∀ pe ∈ l, pe.1 ≠ [])
    (p : List String) : findPath (toTree l) p = plookup p l :=
  findPath_toTreeFuel p (maxDepth l) l h (le_refl _)

/-! ## Colon splitting and joining are inverse -/

theorem colonSplitCore_ne_nil : ∀ (p acc : List Char), colonSplitCore p acc ≠ [] := by
  intro p
  induction p with
  | nil =>
    intro acc
    simp [colonSplitCore]
  | cons ch cs ih =>
    intro acc
    simp only [colonSplitCore]
    split
    · simp
    · exact ih (ch :: acc)

theorem colonSplit_ne_nil (s : String) : colonSplit s ≠ [] := by
  unfold colonSplit
  intro hc
  exact colonSplitCore_ne_nil s.data [] (List.map_eq_nil_iff.mp hc)

theorem colonSplitCore_noColon (p : List Char) : ∀ acc : List Char, ':' ∉ p →
    colonSplitCore p acc = [acc.reverse ++ p] := by
  induction p with
  | nil =>
    intro acc _
    simp [colonSplitCore]
  | cons ch cs ih =>
    intro acc h
    have hch : ¬ch = ':' := fun he => h (by rw [he] at *; exact List.mem_cons_self _ _)
    simp only [colonSplitCore]
    rw [if_neg hch, ih (ch :: acc) fun hm => h (List.mem_cons_of_mem ch hm)]
    simp

theorem colonSplitCore_append (p : List Char) : ∀ (acc rest : List Char), ':' ∉ p →
    colonSplitCore (p ++ ':' :: rest) acc =
      (acc.reverse ++ p) :: colonSplitCore rest [] := by
  induction p with
  | nil =>
    intro acc rest _
    simp [colonSplitCore]
  | cons ch cs ih =>
    intro acc rest h
    have hch : ¬ch = ':' := fun he => h (by rw [he] at *; exact List.mem_cons_self _ _)
    simp only [List.cons_append, colonSplitCore, List.append_eq]
    rw [if_neg hch, ih (ch :: acc) rest fun hm => h (List.mem_cons_of_mem ch hm)]
    simp

theorem colonJoinCore_split : ∀ pss : List (List Char), pss ≠ [] →
    (∀ ps ∈ pss, ':' ∉ ps) → colonSplitCore (colonJoinCore pss) [] = pss := by
  intro pss
  induction pss with
  | nil =>
    intro h _
    exact absurd rfl h
  | cons p rest ih =>
    intro _ h
    cases rest with
    | nil =>
      show colonSplitCore (colonJoinCore [p]) [] = [p]
      rw [show colonJoinCore [p] = p from rfl,
        colonSplitCore_noColon p [] (h p (List.mem_cons_self _ _))]
      simp
    | cons q rest2 =>
      show colonSplitCore (p ++ ':' :: colonJoinCore (q :: rest2)) [] = p :: q :: rest2
      rw [colonSplitCore_append p [] (colonJoinCore (q :: rest2))
        (h p (List.mem_cons_self _ _))]
      rw [ih (by simp) fun x hx => h x (List.mem_cons_of_mem p hx)]
      simp

theorem stringMk_data (s : String) : String.mk s.data = s := by
  cases s
  rfl

theorem colonSplit_colonJoin (ps : List String) (hne : ps ≠ [])
    (h : ∀ s ∈ ps, ':' ∉ s.data) : colonSplit (colonJoin ps) = ps := by
  unfold colonSplit colonJoin
  rw [show (String.mk (colonJoinCore (ps.map String.data))).data =
    colonJoinCore (ps.map String.data) from rfl]
  rw [colonJoinCore_split (ps.map String.data) (by simpa using hne) ?_]
  · rw [List.map_map]
    have hcongr : ∀ s ∈ ps, (String.mk ∘ String.data) s = id s := fun s _ => stringMk_data s
    rw [List.map_congr_left hcongr, List.map_id]
  · intro x hx
    rcases List.mem_map.mp hx with ⟨s, hs, rfl⟩
    exact h s hs

theorem configPairs_path_ne_nil (c : Config) : ∀ pe ∈ configPairs c, pe.1 ≠ [] := by
  intro pe hpe
  rcases List.mem_map.mp hpe with ⟨kv, _, rfl⟩
  exact colonSplit_ne_nil kv.1

/-! ## The claims -/

/-- C1, counterexample: the claim's mapping says a default that is not an
int, float, str, `SVector2D` or 2-tuple of floats must raise, and that an
int default registers an Int64 entry.  The binding instead accepts the
2-tuple of ints `(1, 2)` (pybind11's converting `cast<float>` accepts
ints), registering a Vec2 entry, and raises a `cast_error` for the int
default `2 ** 63`, which exceeds `int64_t`. -/
theorem C1_counterexample :
    claimListedKind (.pyTuple [.pint 1, .pint 2]) = none
    ∧ add_value cfg0 "x" (.pyTuple [.pint 1, .pint 2]) =
        .ok ⟨false, [("x", ⟨.vec2, .vec2 1 2, false⟩)], [], false, false, []⟩
    ∧ claimListedKind (.pyInt (2 ^ 63)) = some .int64
    ∧ (add_value cfg0 "big" (.pyInt (2 ^ 63))).isOk = false := by
  refine ⟨rfl, by decide, rfl, by decide⟩

/-- C1 (amended): for every `add_value`/`add_special_value` call on an
open config with a fresh name, the kind of the registered entry is
determined exactly by the shape of the default per `bindingDefaultKind` —
int (bools included) within the int64 range maps to Int64, float to the
float kind, str to Text, `SVector2D` or a 2-tuple of float-convertible
values (floats, bools, or ints converting to a finite double) to Vec2 —
and for every other default shape, a too-large int, or a 2-tuple with a
non-convertible item, the call raises an error rather than silently
registering a Text entry. -/
theorem C1_default_kind_mapping (c : Config) (name cat : String) (d : PyObject)
    (k : ValueKind) (hl : c.locked = false) (hf : lookupKey name c.entries = none) :
    (bindingDefaultKind d = some k →
      ∃ c1, add_value c name d = .ok c1 ∧
        ∃ e, lookupKey name c1.entries = some e ∧ e.kind = k ∧ e.setByUser = false)
    ∧ (bindingDefaultKind d = none → (add_value c name d).isOk = false)
    ∧ (∀ es, lookupKey cat c.specials = some es → lookupKey name es = none →
        (bindingDefaultKind d = some k →
          ∃ c1, add_special_value c cat name d = .ok c1 ∧
            ∃ es1, lookupKey cat c1.specials = some es1 ∧
              ∃ e, lookupKey name es1 = some e ∧ e.kind = k ∧ e.setByUser = false)
        ∧ (bindingDefaultKind d = none → (add_special_value c cat name d).isOk = false)) := by
  cases hcd : classifyDefault d with
  | ok v =>
    have hb := bindingKind_of_ok hcd
    refine ⟨?_, ?_, ?_⟩
    · intro hk
      rw [hb] at hk
      injection hk with hk2
      have hav : add_value c name d =
          .ok { c with entries := c.entries ++ [(name, ⟨v.kind, v, false⟩)] } := by
        unfold add_value
        rw [hcd]
        exact addConfigValue_ok_of v hl hf
      exact ⟨_, hav, ⟨v.kind, v, false⟩, lookupKey_append_self hf, hk2, rfl⟩
    · intro h0
      rw [hb] at h0
      cases h0
    · intro es hes hfs
      refine ⟨?_, ?_⟩
      · intro hk
        rw [hb] at hk
        injection hk with hk2
        have hav : add_special_value c cat name d =
            .ok { c with
                  specials := setKey c.specials cat (es ++ [(name, ⟨v.kind, v, false⟩)]) } := by
          unfold add_special_value
          rw [hcd]
          exact addSpecialConfigValue_ok_of v hl hes hfs
        refine ⟨_, hav, es ++ [(name, ⟨v.kind, v, false⟩)], ?_,
          ⟨v.kind, v, false⟩, lookupKey_append_self hfs, hk2, rfl⟩
        show lookupKey cat (setKey c.specials cat _) = _
        rw [lookupKey_setKey, if_pos rfl, hes]
        rfl
      · intro h0
        rw [hb] at h0
        cases h0
  | castFail =>
    have hb := bindingKind_of_not_ok (Or.inl hcd)
    refine ⟨?_, ?_, ?_⟩
    · intro hk
      rw [hb] at hk
      cases hk
    · intro _
      unfold add_value
      rw [hcd]
      rfl
    · intro es _ _
      refine ⟨?_, ?_⟩
      · intro hk
        rw [hb] at hk
        cases hk
      · intro _
        unfold add_special_value
        rw [hcd]
        rfl
  | unsupported =>
    have hb := bindingKind_of_not_ok (Or.inr hcd)
    refine ⟨?_, ?_, ?_⟩
    · intro hk
      rw [hb] at hk
      cases hk
    · intro _
      unfold add_value
      rw [hcd]
      rfl
    · intro es _ _
      refine ⟨?_, ?_⟩
      · intro hk
        rw [hb] at hk
        cases hk
      · intro _
        unfold add_special_value
        rw [hcd]
        rfl

/-- Witness for C1: a str default registers a Text entry, a None default
raises, and a 2-tuple holding an int at the double-overflow bound
(`2 ^ 1024 - 2 ^ 970`, the smallest int whose double conversion
overflows) raises instead of registering a Vec2. -/
theorem C1_witness :
    (∃ c1, add_value cfg0 "x" (.pyStr "s") = .ok c1 ∧
      ∃ e, lookupKey "x" c1.entries = some e ∧ e.kind = .text ∧ e.setByUser = false)
    ∧ (add_value cfg0 "x" .pyNone).isOk = false
    ∧ (add_value cfg0 "t" (.pyTuple [.pint doubleOverflowBound, .pint 0])).isOk = false := by
  have hbig : ¬(-doubleOverflowBound < doubleOverflowBound ∧
      doubleOverflowBound < doubleOverflowBound) := fun hcontra => lt_irrefl _ hcontra.2
  have hfc : floatConvertible (.pint doubleOverflowBound) = false := by
    show (if -doubleOverflowBound < doubleOverflowBound ∧
        doubleOverflowBound < doubleOverflowBound then true else false) = false
    rw [if_neg hbig]
  have hnone : bindingDefaultKind (.pyTuple [.pint doubleOverflowBound, .pint 0]) = none := by
    simp only [bindingDefaultKind, List.all_cons, List.all_nil, hfc]
    rfl
  exact ⟨(C1_default_kind_mapping cfg0 "x" "cat" (.pyStr "s") .text rfl rfl).1 rfl,
    (C1_default_kind_mapping cfg0 "x" "cat" .pyNone .text rfl rfl).2.1 rfl,
    (C1_default_kind_mapping cfg0 "t" "cat" (.pyTuple [.pint doubleOverflowBound, .pint 0])
      .text rfl rfl).2.1 hnone⟩

/-- C2: `parse`, `parse_file` and `parse_dynamic` return a ParseResult
value whenever the config is commenced — whatever the source holds, a
parse-domain failure lands in the result, never in an exception — and the
only raising condition is the programmer error of calling them before
`commence()`. -/
theorem C2_parse_returns_result (c : Config) (fs : FileSys) (path line : String) :
    (c.locked = true →
      (parse c).isOk = true ∧ (parse_file fs c path).isOk = true ∧
        (parse_dynamic c line).isOk = true)
    ∧ (c.locked = false →
      (parse c).isOk = false ∧ (parse_file fs c path).isOk = false ∧
        (parse_dynamic c line).isOk = false) := by
  constructor
  · intro hl
    refine ⟨?_, ?_, ?_⟩
    · unfold parse
      rw [if_pos hl]
      rfl
    · unfold parse_file
      rw [if_pos hl]
      split
      · rfl
      · split <;> rfl
    · unfold parse_dynamic
      rw [if_pos hl]
      split <;> rfl
  · intro hl
    have hl2 : ¬c.locked = true := by rw [hl]; simp
    refine ⟨?_, ?_, ?_⟩
    · unfold parse
      rw [if_neg hl2]
      rfl
    · unfold parse_file
      rw [if_neg hl2]
      rfl
    · unfold parse_dynamic
      rw [if_neg hl2]
      rfl

/-- Witness for C2: a commenced config whose source holds two malformed
assignments still gets result values from all three calls; an
uncommenced config raises from all three. -/
theorem C2_witness :
    ((parse cfgTwoBad).isOk = true ∧ (parse_file [] cfgTwoBad "f").isOk = true ∧
      (parse_dynamic cfgTwoBad "a = zz").isOk = true)
    ∧ ((parse cfg0).isOk = false ∧ (parse_file [] cfg0 "f").isOk = false ∧
      (parse_dynamic cfg0 "a = 1").isOk = false) :=
  ⟨(C2_parse_returns_result cfgTwoBad [] "f" "a = zz").1 rfl,
   (C2_parse_returns_result cfg0 [] "f" "a = 1").2 rfl⟩

/-- C3, counterexample: the claim says the float kind and the Vec2
components are 64-bit floating point; the binding stores them through C++
`float`, which is 32 bits. -/
theorem C3_counterexample :
    floatKindBits = 32 ∧ vec2ComponentBits = 32
    ∧ floatKindBits ≠ 64 ∧ vec2ComponentBits ≠ 64 := by decide

/-- C3 (amended): every configuration value is one of exactly four
kinds — Int64, a float kind, Text, Vec2 — where the float kind is stored
as a 32-bit C++ float and Vec2 holds two 32-bit components, and the kind
of a registered entry never changes across any subsequent binding
call. -/
theorem C3_four_kinds_32bit_immutable (v : ConfigValue) (fs : FileSys) (c : Config)
    (op : Op) (p : String) (e : Entry) (h : lookupKey p c.entries = some e) :
    (v.kind = .int64 ∨ v.kind = .float ∨ v.kind = .text ∨ v.kind = .vec2)
    ∧ intKindBits = 64 ∧ floatKindBits = 32 ∧ vec2ComponentBits = 32
    ∧ ∃ e1, lookupKey p (step fs c op).entries = some e1 ∧ e1.kind = e.kind := by
  refine ⟨?_, rfl, rfl, rfl, ?_⟩
  · cases v <;> simp [ConfigValue.kind]
  · obtain ⟨e1, h1, hk, _⟩ := step_entry fs c op p h
    exact ⟨e1, h1, hk⟩

/-- Witness for C3: the Int64 entry `a` keeps its kind across a dynamic
overwrite. -/
theorem C3_witness :
    ((ConfigValue.int64 5).kind = .int64 ∨ (ConfigValue.int64 5).kind = .float ∨
      (ConfigValue.int64 5).kind = .text ∨ (ConfigValue.int64 5).kind = .vec2)
    ∧ intKindBits = 64 ∧ floatKindBits = 32 ∧ vec2ComponentBits = 32
    ∧ ∃ e1, lookupKey "a" (step [] cfgSetLocked (.opParseDynamic "a = 9")).entries = some e1 ∧
        e1.kind = Entry.kind ⟨.int64, .int64 7, true⟩ :=
  C3_four_kinds_32bit_immutable (.int64 5) [] cfgSetLocked (.opParseDynamic "a = 9") "a"
    ⟨.int64, .int64 7, true⟩ (by decide)

/-- C4: `commence` is idempotent — the second call is a no-op, not an
error — and after commencing, `add_value` with any name and any
well-classified default fails with the AlreadyLocked error. -/
theorem C4_commence_idempotent_and_locks (c : Config) (name : String) (d : PyObject)
    (v : ConfigValue) (h : classifyDefault d = .ok v) :
    commence (commence c) = commence c
    ∧ add_value (commence c) name d = .error .alreadyLocked := by
  constructor
  · rfl
  · unfold add_value
    rw [h]
    show addConfigValue (commence c) name v = .error .alreadyLocked
    unfold addConfigValue
    rw [if_pos (show (commence c).locked = true from rfl)]

/-- Witness for C4 at a concrete config and default. -/
theorem C4_witness :
    commence (commence cfg0) = commence cfg0
    ∧ add_value (commence cfg0) "x" (.pyInt 3) = .error .alreadyLocked :=
  C4_commence_idempotent_and_locks cfg0 "x" (.pyInt 3) (.int64 3) (by decide)

/-- C5: when some segment of a nonempty path is missing from the tree,
`lookupPath` fails with NotFound; and at the binding surface,
`get_value_info` on an unregistered name raises the runtime error of
bindings.cpp line 158 rather than returning a proxy. -/
theorem C5_lookup_not_found (t : Cat) (p : List String) (c : Config) (name : String)
    (hne : p ≠ []) (hmiss : pathMissing t p = true)
    (hreg : lookupKey name c.entries = none) :
    lookupPath t p = .error .notFound
    ∧ get_value_info c name = .error (.runtimeError ("Config value not found: " ++ name)) := by
  constructor
  · unfold lookupPath
    rw [pathMissing_findPath p t hne hmiss]
  · unfold get_value_info
    rw [hreg]

/-- Witness for C5: `general:gaps_in` is missing from the example tree,
and `missing` is unregistered in the example config. -/
theorem C5_witness :
    lookupPath catGeneral ["general", "gaps_in"] = .error .notFound
    ∧ get_value_info cfgReg "missing" =
        .error (.runtimeError ("Config value not found: " ++ "missing")) :=
  C5_lookup_not_found catGeneral ["general", "gaps_in"] cfgReg "missing"
    (by decide) (by decide) (by decide)

/-- C6: `setByUser` is false immediately after registration, becomes true
when a real assignment is committed, and is monotone across every binding
call — in particular it stays true across a later `parse_dynamic`
overwrite. -/
theorem C6_setByUser_lifecycle (c c1 : Config) (fs : FileSys) (name p raw : String)
    (d : PyObject) (op : Op) (e : Entry) :
    (add_value c name d = .ok c1 →
      ∃ e0, lookupKey name c1.entries = some e0 ∧ e0.setByUser = false)
    ∧ (applyAssignment c p raw = (c1, none) →
      ∃ e1, lookupKey p c1.entries = some e1 ∧ e1.setByUser = true)
    ∧ (lookupKey p c.entries = some e → e.setByUser = true →
      ∃ e1, lookupKey p (step fs c op).entries = some e1 ∧ e1.setByUser = true) := by
  refine ⟨?_, ?_, ?_⟩
  · intro hav
    unfold add_value at hav
    cases hcd : classifyDefault d with
    | ok v =>
      rw [hcd] at hav
      obtain ⟨hl, hf, hc1⟩ := addConfigValue_ok hav
      subst hc1
      exact ⟨⟨v.kind, v, false⟩, lookupKey_append_self hf, rfl⟩
    | castFail =>
      rw [hcd] at hav
      cases hav
    | unsupported =>
      rw [hcd] at hav
      cases hav
  · intro ha
    unfold applyAssignment at ha
    split at ha
    · simp at ha
    · rename_i e0 hq
      split at ha
      · simp at ha
      · rename_i v hc
        injection ha with h1 h2
        refine ⟨{ e0 with value := v, setByUser := true }, ?_, rfl⟩
        rw [← h1]
        show lookupKey p (setKey c.entries p _) = _
        rw [lookupKey_setKey, if_pos rfl, hq]
        rfl
  · intro h hs
    obtain ⟨e1, h1, _, hmono⟩ := step_entry fs c op p h
    exact ⟨e1, h1, hmono hs⟩

/-- Witness for C6: registration leaves `set_by_user` false, a committed
assignment sets it, and a later dynamic overwrite keeps it true. -/
theorem C6_witness :
    (∃ e0, lookupKey "a" cfgReg.entries = some e0 ∧ e0.setByUser = false)
    ∧ (∃ e1, lookupKey "a" cfgSet.entries = some e1 ∧ e1.setByUser = true)
    ∧ (∃ e1, lookupKey "a" (step [] cfgSetLocked (.opParseDynamic "a = 9")).entries = some e1 ∧
        e1.setByUser = true) :=
  ⟨(C6_setByUser_lifecycle cfg0 cfgReg [] "a" "a" "7" (.pyInt 3) .opCommence
      ⟨.int64, .int64 3, false⟩).1 (by decide),
   (C6_setByUser_lifecycle cfgReg cfgSet [] "a" "a" "7" (.pyInt 3) .opCommence
      ⟨.int64, .int64 3, false⟩).2.1 (by decide),
   (C6_setByUser_lifecycle cfgSetLocked cfgSet [] "a" "a" "7" (.pyInt 3)
      (.opParseDynamic "a = 9") ⟨.int64, .int64 7, true⟩).2.2 (by decide) (by decide)⟩

/-- C7: over a source whose failing events are exactly two, single-error
mode stops at the first failure and reports exactly that one message with
`failed = true`, while collect-all mode reports both messages in
encounter order. -/
theorem C7_error_modes (c : Config) (evs : List Event) (m1 m2 : String)
    (h : evs.filterMap (evFail c) = [m1, m2]) :
    ((runParse false c evs).1.error = true ∧ (runParse false c evs).1.messages = [m1])
    ∧ ((runParse true c evs).1.error = true ∧
        (runParse true c evs).1.messages = [m1, m2]) := by
  have hs := runEvents_msgs_single evs c
  have ha := runEvents_msgs_all evs c
  rw [h] at hs ha
  refine ⟨⟨?_, ?_⟩, ⟨?_, ?_⟩⟩
  · show (!(runEvents false c evs).2.isEmpty) = true
    rw [hs]
    rfl
  · show (runEvents false c evs).2 = [m1]
    rw [hs]
    rfl
  · show (!(runEvents true c evs).2.isEmpty) = true
    rw [ha]
    rfl
  · exact ha

/-- Witness for C7: the stream config with two malformed Int64
assignments. -/
theorem C7_witness :
    ((runParse false cfgTwoBad cfgTwoBad.source).1.error = true ∧
      (runParse false cfgTwoBad cfgTwoBad.source).1.messages = [coerceFailMsg "a" "x1"])
    ∧ ((runParse true cfgTwoBad cfgTwoBad.source).1.error = true ∧
      (runParse true cfgTwoBad cfgTwoBad.source).1.messages =
        [coerceFailMsg "a" "x1", coerceFailMsg "a" "x2"]) :=
  C7_error_modes cfgTwoBad cfgTwoBad.source (coerceFailMsg "a" "x1")
    (coerceFailMsg "a" "x2") (by decide)

/-- C8: looking a registered path up by its flattened colon-joined key
resolves exactly as nested traversal of the same segments, and the
`to_tree` export is lossless — nested lookup in the rebuilt tree agrees
with the flat store at every path. -/
theorem C8_flat_nested_equivalence (t : Cat) (ps : List String) (c : Config)
    (p : List String) (hne : ps ≠ []) (hcol : ∀ s ∈ ps, ':' ∉ s.data) :
    findPath t (colonSplit (colonJoin ps)) = findPath t ps
    ∧ findPath (to_tree c) p = plookup p (configPairs c) := by
  constructor
  · rw [colonSplit_colonJoin ps hne hcol]
  · exact findPath_toTree (configPairs c) (configPairs_path_ne_nil c) p

/-- Witness for C8: `general:border_size` resolves identically in both
forms, and the rebuilt tree of the example config agrees with its flat
store. -/
theorem C8_witness :
    findPath catGeneral (colonSplit (colonJoin ["general", "border_size"])) =
      findPath catGeneral ["general", "border_size"]
    ∧ findPath (to_tree cfgSet) ["a"] = plookup ["a"] (configPairs cfgSet) :=
  C8_flat_nested_equivalence catGeneral ["general", "border_size"] cfgSet ["a"]
    (by decide) (by decide)

/-- C9: `register_handler` always raises the not-yet-supported runtime
error, for every name, callback and options, and therefore never
produces a config with a handler installed. -/
theorem C9_register_handler_unsupported (c : Config) (name : String)
    (cb : String → String → Option String) (allowFlags : Bool) :
    register_handler c name cb allowFlags = .error (.runtimeError registerHandlerMsg)
    ∧ ∀ c1, register_handler c name cb allowFlags ≠ .ok c1 :=
  ⟨rfl, fun _ h => Except.noConfusion h⟩

/-- C10: a bool default is absorbed by the int branch (`PyLong_Check`
runs first and accepts bools), so `add_value(name, True)` and
`add_value(name, False)` register an Int64 entry with default 1 or 0
instead of raising the unsupported-default error. -/
theorem C10_bool_defaults (c : Config) (name : String) (b : Bool)
    (hl : c.locked = false) (hf : lookupKey name c.entries = none) :
    add_value c name (.pyBool b) =
      .ok { c with entries :=
        c.entries ++ [(name, ⟨.int64, .int64 (if b then 1 else 0), false⟩)] } := by
  unfold add_value
  show addConfigValue c name (.int64 (if b then 1 else 0)) = _
  rw [addConfigValue_ok_of _ hl hf]
  rfl

/-- Witness for C10: both bool defaults on the empty open config. -/
theorem C10_witness :
    add_value cfg0 "flag" (.pyBool true) =
      .ok ⟨false, [("flag", ⟨.int64, .int64 1, false⟩)], [], false, false, []⟩
    ∧ add_value cfg0 "flag" (.pyBool false) =
      .ok ⟨false, [("flag", ⟨.int64, .int64 0, false⟩)], [], false, false, []⟩ :=
  ⟨C10_bool_defaults cfg0 "flag" true rfl rfl, C10_bool_defaults cfg0 "flag" false rfl rfl⟩

end HyprlangBind
